import Mathlib

/-!
# Verification of the `yaml_runner` core against its specification

This file gives a shallow embedding, in Lean 4, of the core of the
`yaml_runner` repository (`src/yaml_runner/yaml_runner.py` and the CLI entry
point `examples/yaml_runner_run.py`) and proves or refutes the frozen claims
about it.

Conventions of the embedding:
* Python dictionaries (as produced by `yaml.load`) are modelled as
  insertion-ordered association lists with unique keys; `dict.get` and
  `dict.update` are modelled by `dictGet` / `dictUpdate` below.
* Python strings are modelled as `String` (and as `List Char` where
  character-level algorithms such as `str.replace` matter; Python's `str` is a
  sequence of code points, which `List Char` models directly).
* Mutation (the walker mutates the configuration in place) is modelled by
  explicit state passing: the embedded function returns the updated structure
  alongside its result.
* Fallible code (`raise`) is modelled with `Except` / explicit outcome types.
-/

namespace YamlRunner

/-- A loaded YAML document, as produced by `yaml.load` with a safe loader:
scalars, sequences, and (insertion-ordered) mappings. Mappings are modelled as
association lists, matching Python's insertion-ordered `dict`; the
configuration is tree-shaped (no aliasing), as assumed by the walker. -/
inductive Yaml where
  | null : Yaml
  | bool (b : Bool) : Yaml
  | int (n : Int) : Yaml
  | str (s : String) : Yaml
  | seq (items : List Yaml) : Yaml
  | map (entries : List (String × Yaml)) : Yaml
deriving Repr

/-- Python truthiness of a loaded YAML value: `None`, `False`, `0`, `''`,
`[]` and `{}` are falsy, everything else is truthy. -/
def pyTruthy : Yaml → Bool
  | .null => false
  | .bool b => b
  | .int n => n != 0
  | .str s => !s.data.isEmpty
  | .seq l => !l.isEmpty
  | .map m => !m.isEmpty

/-- `d.get(k, None)`: the value bound to `k`, if any. Keys are unique in a
Python dict, so first-match lookup is exact. -/
def dictGet (entries : List (String × Yaml)) (k : String) : Option Yaml :=
  match entries with
  | [] => none
  | (k', v) :: rest => if k' = k then some v else dictGet rest k

/-- `d.update({k: v})` on a Python dict: overwrite the binding in place if the
key is present (keeping its position), otherwise append the new binding at the
end (insertion order). -/
def dictUpdate (entries : List (String × Yaml)) (k : String) (v : Yaml) :
    List (String × Yaml) :=
  match entries with
  | [] => [(k, v)]
  | (k', v') :: rest =>
    if k' = k then (k, v) :: rest else (k', v') :: dictUpdate rest k v

/-- `value.get('command', None)` is truthy: the test the walker applies to
decide that a mapping is a command section. -/
def truthyCommand (entries : List (String × Yaml)) : Bool :=
  match dictGet entries "command" with
  | some v => pyTruthy v
  | none => false

/-- Embedding of `YamlRunner._get_command_sections` (yaml_runner.py:168-187).
The Python code iterates over the mapping's entries in order; for each value
that is a dict it either (a) tags it with `{'name': key}` *in place* and emits
it when its `command` entry is truthy, or (b) recurses into it otherwise;
non-dict values are skipped.  The in-place mutation is modelled by returning
the updated mapping as the second component. -/
def getCommandSections : List (String × Yaml) →
    List (List (String × Yaml)) × List (String × Yaml)
  | [] => ([], [])
  | (k, Yaml.map mv) :: rest =>
    if truthyCommand mv then
      ((dictUpdate mv "name" (Yaml.str k)) :: (getCommandSections rest).1,
       (k, Yaml.map (dictUpdate mv "name" (Yaml.str k))) :: (getCommandSections rest).2)
    else
      ((getCommandSections mv).1 ++ (getCommandSections rest).1,
       (k, Yaml.map (getCommandSections mv).2) :: (getCommandSections rest).2)
  | (k, v) :: rest =>
    ((getCommandSections rest).1, (k, v) :: (getCommandSections rest).2)

/-- Specification-side enumeration (independent of the walker): all
mapping-valued entries of the configuration in depth-first left-to-right
order, each as `(key, mapping, under)` where `under` records whether some
strict ancestor mapping entry has a truthy `command` entry.  Unlike the
walker, this enumeration descends into *every* nested mapping, including
command sections, so that "no strict descendant of a command section is
emitted" is an actual statement. -/
def dfsEntries (under : Bool) : List (String × Yaml) →
    List (String × List (String × Yaml) × Bool)
  | [] => []
  | (k, Yaml.map mv) :: rest =>
    (k, mv, under) :: (dfsEntries (under || truthyCommand mv) mv ++ dfsEntries under rest)
  | (_, _) :: rest => dfsEntries under rest

/-- The walker's effect on the configuration, written independently: every
mapping entry with a truthy `command` entry has its `name` key set to the key
it is bound to; mappings without a truthy `command` entry are transformed
recursively; everything else is untouched. -/
def tagNames : List (String × Yaml) → List (String × Yaml)
  | [] => []
  | (k, Yaml.map mv) :: rest =>
    if truthyCommand mv then
      (k, Yaml.map (dictUpdate mv "name" (Yaml.str k))) :: tagNames rest
    else
      (k, Yaml.map (tagNames mv)) :: tagNames rest
  | (k, v) :: rest => (k, v) :: tagNames rest

/-! ## Stage 3: command-parameter processing (`_process_command_config`,
`_process_command_params`)

Command lines are Python strings; character-level algorithms (`'$@' in s`,
`s.replace('$@', r)`, `' '.join(args)`) are modelled on `List Char`. -/

/-- The literal placeholder `$@`. -/
def dollarAt : List Char := ['$', '@']

/-- Python's `'$@' in s`: is `$@` a substring? -/
def containsDollarAt : List Char → Bool
  | [] => false
  | [_] => false
  | c1 :: c2 :: rest => (c1 = '$' && c2 = '@') || containsDollarAt (c2 :: rest)

/-- Python's `s.replace('$@', rep)`: replace every non-overlapping occurrence
of `$@`, scanning left to right. -/
def replaceDollarAt (rep : List Char) : List Char → List Char
  | [] => []
  | [c] => [c]
  | c1 :: c2 :: rest =>
    if c1 = '$' && c2 = '@' then rep ++ replaceDollarAt rep rest
    else c1 :: replaceDollarAt rep (c2 :: rest)

/-- Python's `sep.join(parts)`. -/
def joinWith (sep : List Char) : List (List Char) → List Char
  | [] => []
  | [a] => a
  | a :: b :: rest => a ++ sep ++ joinWith sep (b :: rest)

/-- `' '.join(args)`, as used in the substitution loop. -/
def spaceJoin (args : List (List Char)) : List Char :=
  joinWith [' '] args

/-- Embedding of the substitution loop of `_process_command_params`
(yaml_runner.py:270-276): `for index, command in enumerate(self.commands):
if '$@' in command: self.commands[index] = command.replace('$@',
' '.join(self._remaining_args))`.  Each entry is rewritten independently, so
the in-place indexed loop is a `map`. -/
def substituteCommands (commands : List (List Char))
    (remainingArgs : List (List Char)) : List (List Char) :=
  commands.map fun c =>
    if containsDollarAt c then replaceDollarAt (spaceJoin remainingArgs) c else c

/-- Embedding of `_process_command_config` (yaml_runner.py:278-291): the
`command` value of the selected section is kept as is when it is a list and
wrapped in a singleton list otherwise, and the passthrough flag is computed.
The flag mirrors `if filter(lambda x: '$@' in x, self.commands):` — in
Python 3 `filter` returns a lazy filter object, which is truthy regardless of
whether any element satisfies the predicate, so the branch is always taken
and `passthrough` is always set to `True`. -/
def processCommandConfig (commandVal : Yaml) : List Yaml × Bool :=
  let commands := match commandVal with
    | Yaml.seq items => items
    | v => [v]
  (commands, true)

/-- Modelled from the spec: the intended passthrough decision — "a catch-all
passthrough positional is declared iff the literal placeholder `$@` appears
in at least one line of the command's command-line sequence". -/
def specPassthrough (commands : List (List Char)) : Bool :=
  commands.any containsDollarAt

/-! ## Process Runner sequencing (`_run_commands`) and the CLI exit status -/

/-- What one executed shell line is observed to do: captured stdout, captured
stderr and the exit status.  `_run_command`'s internals (process spawning and
stream draining) are the subject of the concurrency claim; for the
sequencing claims it is abstracted as an oracle from command line to observed
result. -/
def RunOracle : Type := String → String × String × Int

/-- Embedding of `YamlRunner._run_commands` (yaml_runner.py:326-344): run the
commands one at a time in list order, appending the stdout, stderr and exit
code of each run to three parallel result lists.  The loop appends exactly
one entry per command to each list, in iteration order, which is this
recursion. -/
def runCommands (oracle : RunOracle) :
    List String → List String × List String × List Int
  | [] => ([], [], [])
  | c :: rest =>
    ((oracle c).1 :: (runCommands oracle rest).1,
     (oracle c).2.1 :: (runCommands oracle rest).2.1,
     (oracle c).2.2 :: (runCommands oracle rest).2.2)

/-- Embedding of the CLI entry point (examples/yaml_runner_run.py:34-36):
`sys.exit(YAML_RUNNER.run()[2][0])` — the reported exit status is entry `0`
of the exit-code list returned by `run` (Python's `[0]` raises `IndexError`
on an empty list, modelled by `Option`). -/
def cliExitCode (result : List String × List String × List Int) : Option Int :=
  result.2.2[0]?

/-- A concrete run oracle for the exit-status counterexample: the line
`exit 1` exits with status 1, any other line with status 0. -/
def execCodeDemo : RunOracle :=
  fun c => if c = "exit 1" then ("", "", 1) else ("", "", 0)

/-! ## Stage 1: pre-config argument parsing (`_set_initial_args`,
`_get_pre_config_args`, `_set_help_arg`)

The stage-1 parser (yaml_runner.py:131-152) is an argparse parser with
`add_help=False` that holds a *required* option `-c`/`--config YAML_CONFIG`
when (and only when) no configuration was supplied programmatically, plus a
boolean flag `-h`/`--help`.  `parse_known_args` is modelled for the option
syntax this parser can meet: exact flags, unambiguous `--` prefix
abbreviations (`--h` … `--hel` abbreviate `--help`; `--c` … `--confi`
abbreviate `--config`), `--config=VALUE` attached values and `-cVALUE`
attached values; every unrecognized token is collected, in order, into the
leftover list.  (argparse's `--` separator and single-dash clustering are
outside the modelled slice; no claim exercises them.)  A missing required
option makes argparse print usage plus an error line naming `-c`/`--config` to
stderr and raise `SystemExit(2)`; this happens after scanning, so a `--help`
among the arguments does not prevent it (the parser's help flag is an
ordinary boolean argument, not argparse's special help action). -/

/-- Does the token name the parser's help flag? Exact `-h`, or an
unambiguous abbreviation of `--help` (no other long option starts with
`--h`). -/
def isHelpToken (t : String) : Bool :=
  t = "-h" || ("--h".data.isPrefixOf t.data && t.data.isPrefixOf "--help".data)

/-- An unambiguous long-form spelling of `--config` (no other long option
starts with `--c`). -/
def longConfigAbbrev (t : String) : Bool :=
  "--c".data.isPrefixOf t.data && t.data.isPrefixOf "--config".data

/-- A spelling of the config option that expects its value in the *next*
token: exact `-c` or a long form without `=`. -/
def isConfigSeparate (t : String) : Bool :=
  t = "-c" || longConfigAbbrev t

/-- A `-cVALUE` token: short config option with attached value. -/
def shortConfigAttachedValue (t : String) : Option String :=
  if "-c".data.isPrefixOf t.data && t ≠ "-c" && !("--".data.isPrefixOf t.data) then
    some ⟨t.data.drop 2⟩
  else none

/-- A `--config=VALUE` token (the long option possibly abbreviated). -/
def longConfigAttachedValue (t : String) : Option String :=
  let base : List Char := t.data.takeWhile (· ≠ '=')
  if base.length ≠ t.data.length &&
      ("--c".data.isPrefixOf base && base.isPrefixOf "--config".data) then
    some ⟨t.data.drop (base.length + 1)⟩
  else none

/-- Any spelling the stage-1 parser recognizes as its `-c`/`--config`
option. -/
def isConfigToken (t : String) : Bool :=
  isConfigSeparate t || (shortConfigAttachedValue t).isSome ||
    (longConfigAttachedValue t).isSome

/-- argparse usage-plus-error text for a missing required `-c`/`--config`
option (modelled from argparse's standard rendering; the claims only inspect
it for the option names). -/
def missingConfigError : String :=
  "usage: initial_args [-h] -c YAML_CONFIG\ninitial_args: error: the following arguments are required: -c/--config\n"

/-- argparse usage-plus-error text for a config option with no value. -/
def expectedOneArgError : String :=
  "usage: initial_args [-h] -c YAML_CONFIG\ninitial_args: error: argument -c/--config: expected one argument\n"

/-- One left-to-right scan of `parse_known_args` over the stage-1 parser's
two options.  `cfgOpt` says whether the `-c`/`--config` option exists (it is
only added when no configuration was supplied programmatically);
`helpSeen`/`configPath`/`leftovers` are the parse state. -/
def scanInitialArgs (cfgOpt helpSeen : Bool) (configPath : Option String)
    (leftovers : List String) :
    List String → Except String (Bool × Option String × List String)
  | [] => .ok (helpSeen, configPath, leftovers)
  | t :: rest =>
    if cfgOpt && isConfigSeparate t then
      match rest with
      | [] => .error expectedOneArgError
      | v :: rest' =>
        if "-".data.isPrefixOf v.data then .error expectedOneArgError
        else scanInitialArgs cfgOpt helpSeen (some v) leftovers rest'
    else if cfgOpt && (shortConfigAttachedValue t).isSome then
      scanInitialArgs cfgOpt helpSeen (shortConfigAttachedValue t) leftovers rest
    else if cfgOpt && (longConfigAttachedValue t).isSome then
      scanInitialArgs cfgOpt helpSeen (longConfigAttachedValue t) leftovers rest
    else if isHelpToken t then
      scanInitialArgs cfgOpt true configPath leftovers rest
    else
      scanInitialArgs cfgOpt helpSeen configPath (leftovers ++ [t]) rest

/-- Embedding of `_set_help_arg` (yaml_runner.py:380-394): the flag appended
back into the leftover list, chosen by checking the original argument list
(`'--help' in self._external_args`, then `-h`, then `--h`); `none` models the
`RuntimeError` raised when none of the three is present. -/
def helpFlagToReinject (externalArgs : List String) : Option String :=
  if "--help" ∈ externalArgs then some "--help"
  else if "-h" ∈ externalArgs then some "-h"
  else if "--h" ∈ externalArgs then some "--h"
  else none

/-- How the pre-config stage ends. -/
inductive StageOutcome where
  | usageError (code : Int) (stderrMsg : String)
  | helpExit (code : Int)
  | continueRun (remaining : List String) (config : Yaml)
  | internalError (msg : String)
deriving Repr

/-- Embedding of `_get_pre_config_args` (yaml_runner.py:154-166).  `config`
is the programmatically supplied configuration (`self._config` on entry);
`loadConfig` models `_set_config` on the path taken from `--config` (file
reading and YAML parsing are external, load failures are fatal and out of
scope here).  After the scan: a missing required config path is a usage
error (`SystemExit(2)` from argparse); help with a falsy configuration
prints top-level help and exits 0; help with a truthy configuration re-adds
the help flag to the leftover tokens via `_set_help_arg` and continues;
otherwise the leftovers flow to stage 2. -/
def getPreConfigArgs (config : Option Yaml) (loadConfig : String → Yaml)
    (externalArgs : List String) : StageOutcome :=
  match scanInitialArgs config.isNone false none [] externalArgs with
  | .error msg => .usageError 2 msg
  | .ok (helpSeen, configPath, leftovers) =>
    if config.isNone && configPath.isNone then
      .usageError 2 missingConfigError
    else
      let cfg := match config with
        | some c => c
        | none => loadConfig (configPath.getD "")
      if helpSeen && !pyTruthy cfg then
        .helpExit 0
      else if helpSeen then
        match helpFlagToReinject externalArgs with
        | some f => .continueRun (leftovers ++ [f]) cfg
        | none => .internalError "Help is being set but was not an argument"
      else
        .continueRun leftovers cfg

/-- `pat` occurs as a contiguous substring of `s`. -/
def containsSub (s pat : String) : Bool :=
  (List.range (s.data.length + 1)).any fun i => pat.data.isPrefixOf (s.data.drop i)

/-! ## Help Renderer (`add_choices_to_help`, yaml_runner.py:396-445) -/

/-- A choice entry handed to `add_choices_to_help`: a plain name, or a
`(name, description)` tuple. -/
inductive ChoiceInfo where
  | plain (name : String)
  | described (name : String) (description : String)
deriving Repr

/-- Python's `str.split` on a newline: every `\n` separates, empty pieces are
kept (`""` splits to `[""]`, a trailing `\n` yields a trailing `""`). -/
def pySplitLines : List Char → List (List Char)
  | [] => [[]]
  | c :: rest =>
    let r := pySplitLines rest
    if c = '\n' then [] :: r
    else (c :: r.headD []) :: r.tail

/-- The first regex of `add_choices_to_help`,
`re.match` of `^[\s]+METAVAR.*` against a line: one or more whitespace
characters, then the metavar literally (the code interpolates the metavar
into the pattern; the claims use metavars without regex metacharacters),
then anything.  The regex engine backtracks over the length of the
whitespace run, modelled by trying every split point. -/
def lineIntroducesMetavar (metavar line : List Char) : Bool :=
  (List.range (line.length + 1)).any fun k =>
    decide (1 ≤ k) && (line.take k).all (·.isWhitespace) &&
      metavar.isPrefixOf (line.drop k)

/-- The second regex, `re.match` of `[\s]+METAVAR[\s]+` with
`match.span()`: the end column of the greedy anchored match — a whitespace
run, the metavar, then at least one whitespace character (the trailing run
taken maximally).  Greedy matching tries the longest leading whitespace run
first, modelled by scanning split points in descending order; `none` when
the pattern does not match (the code then raises `ValueError`). -/
def metavarDescColumn (metavar line : List Char) : Option Nat :=
  ((List.range (line.length + 1)).reverse.filterMap fun k =>
    if decide (1 ≤ k) && (line.take k).all (·.isWhitespace) &&
        metavar.isPrefixOf (line.drop k) then
      let after := (line.drop (k + metavar.length)).takeWhile (·.isWhitespace)
      if decide (1 ≤ after.length) then some (k + metavar.length + after.length)
      else none
    else none).head?

/-- One rendered choice line: `indent+choice` for a plain name,
`indent+choice[0]+' - '+choice[1]` for a tuple. -/
def formatChoice (indent : List Char) : ChoiceInfo → List Char
  | .plain name => indent ++ name.data
  | .described name desc => indent ++ name.data ++ (" - ".data) ++ desc.data

/-- The insertion loop of `add_choices_to_help`: each choice is inserted at
`command_index+1`, after which `command_index` is incremented. -/
def insertChoicesLoop :
    List (List Char) → Nat → List Char → List ChoiceInfo → List (List Char)
  | lines, _, _, [] => lines
  | lines, ci, indent, ch :: rest =>
    insertChoicesLoop (lines.insertIdx (ci + 1) (formatChoice indent ch))
      (ci + 1) indent rest

/-- Embedding of `add_choices_to_help` (yaml_runner.py:396-445): split the
help text into lines; find the first line matching leading whitespace plus
the metavar (else raise `IndexError`); compute the description column from
the second regex (else raise `ValueError`); insert a `Choices:` line
directly beneath, indented to that column, then one line per choice indented
two further spaces; rejoin with newlines. -/
def addChoicesToHelp (helpString commandMetavar : String)
    (choices : List ChoiceInfo) : Except String String :=
  let helpLines := pySplitLines helpString.data
  match helpLines.findIdx?
      (fun line => lineIntroducesMetavar commandMetavar.data line) with
  | none => .error "command_metavar not found in help string"
  | some i =>
    match metavarDescColumn commandMetavar.data (helpLines.getD i []) with
    | none => .error "help_string expected in standard format"
    | some col =>
      let indent := List.replicate col ' '
      let lines1 := helpLines.insertIdx (i + 1) (indent ++ ("Choices:".data))
      let lines2 := insertChoicesLoop lines1 (i + 1) (indent ++ ("  ".data))
        choices
      .ok ⟨joinWith ['\n'] lines2⟩

/-- A concrete argparse-shaped help text for the Help Renderer witness. -/
def demoHelpText : String :=
  "usage: prog [-h] COMMAND\n\npositional arguments:\n  COMMAND  Commands found in the config\n\noptions:\n  -h, --help  Show information about the command"

/-- Concrete choices for the Help Renderer witness. -/
def demoChoices : List ChoiceInfo :=
  [ChoiceInfo.described "hello_world" "print hello world in stdout",
   ChoiceInfo.plain "echo_all"]

/-! ## Process Runner concurrency (`_run_command`, `_read_stream`;
yaml_runner.py:294-324 and 447-470)

`_run_command` spawns the child with stdout and stderr piped, starts one
`_read_stream` thread per stream, blocks in `proc.wait()`, then joins the
stdout thread and reads `stdout_result[0]`, then joins the stderr thread and
reads `stderr_result[0]`.  `_read_stream` loops `readline` until it returns
the empty string (end of stream: buffer drained *and* writer gone), echoing
and accumulating each chunk, and finally appends the accumulated data to its
result list.  This is modelled as a small-step transition system over the
child, the two pipe buffers, the two reader threads and the parent, with a
nondeterministic scheduler: any enabled actor may step, so every thread
interleaving is a trace.  Chunks are the lines `readline` returns. -/

/-- The state of one `_read_stream` thread: the accumulated `data`, the
`result_list`, and whether the thread has returned. -/
structure ReaderSt where
  acc : List Char
  result : List (List Char)
  done : Bool
deriving Repr

/-- The parent's program counter through `_run_command`: `proc.wait()`, then
`stdout_thread.join()`, `stdout = stdout_result[0]`, `stderr_thread.join()`,
`stderr = stderr_result[0]`. -/
inductive ParentPc where
  | waitProc
  | joinOut
  | readOut
  | joinErr
  | readErr
  | finished
deriving Repr, DecidableEq

/-- Global state: the child's remaining writes (`true` = stdout), whether the
child is still running, the two pipe buffers (written at the tail, read at
the head), the two reader threads, the parent's position and the two locals
it reads into. -/
structure RunSt where
  script : List (Bool × List Char)
  alive : Bool
  outBuf : List (List Char)
  errBuf : List (List Char)
  rdOut : ReaderSt
  rdErr : ReaderSt
  pc : ParentPc
  stdoutVar : Option (List Char)
  stderrVar : Option (List Char)
deriving Repr

/-- Initial state for a child that will write the given chunks and exit. -/
def initRunSt (script : List (Bool × List Char)) : RunSt :=
  ⟨script, true, [], [], ⟨[], [], false⟩, ⟨[], [], false⟩,
    ParentPc.waitProc, none, none⟩

/-- The chunks the child writes to stdout, in order. -/
def outChunks (script : List (Bool × List Char)) : List (List Char) :=
  script.filterMap fun e => if e.1 then some e.2 else none

/-- The chunks the child writes to stderr, in order. -/
def errChunks (script : List (Bool × List Char)) : List (List Char) :=
  script.filterMap fun e => if e.1 then none else some e.2

/-- One interleaving step.  The child writes its next chunk or exits; a
reader not yet done takes a buffered chunk (`readline` returning data) or,
when the buffer is empty and the writer is gone, sees end-of-stream and
finishes (appending its accumulated data to its result list) — with the
child alive and the buffer empty, `readline` blocks, so no step exists; the
parent's wait is enabled once the child exited, each join once the
corresponding reader finished, and each read takes entry 0 of the result
list. -/
inductive Step : RunSt → RunSt → Prop where
  | childWriteOut (s : RunSt) (chunk : List Char) (rest : List (Bool × List Char)) :
      s.alive = true → s.script = (true, chunk) :: rest →
      Step s { s with script := rest, outBuf := s.outBuf ++ [chunk] }
  | childWriteErr (s : RunSt) (chunk : List Char) (rest : List (Bool × List Char)) :
      s.alive = true → s.script = (false, chunk) :: rest →
      Step s { s with script := rest, errBuf := s.errBuf ++ [chunk] }
  | childExit (s : RunSt) :
      s.alive = true → s.script = [] →
      Step s { s with alive := false }
  | outRead (s : RunSt) (chunk : List Char) (rest : List (List Char)) :
      s.rdOut.done = false → s.outBuf = chunk :: rest →
      Step s { s with
        outBuf := rest,
        rdOut := { s.rdOut with acc := s.rdOut.acc ++ chunk } }
  | outFinish (s : RunSt) :
      s.rdOut.done = false → s.outBuf = [] → s.alive = false →
      Step s { s with rdOut := ⟨s.rdOut.acc,
        s.rdOut.result ++ [s.rdOut.acc], true⟩ }
  | errRead (s : RunSt) (chunk : List Char) (rest : List (List Char)) :
      s.rdErr.done = false → s.errBuf = chunk :: rest →
      Step s { s with
        errBuf := rest,
        rdErr := { s.rdErr with acc := s.rdErr.acc ++ chunk } }
  | errFinish (s : RunSt) :
      s.rdErr.done = false → s.errBuf = [] → s.alive = false →
      Step s { s with rdErr := ⟨s.rdErr.acc,
        s.rdErr.result ++ [s.rdErr.acc], true⟩ }
  | parentWait (s : RunSt) :
      s.pc = ParentPc.waitProc → s.alive = false →
      Step s { s with pc := ParentPc.joinOut }
  | parentJoinOut (s : RunSt) :
      s.pc = ParentPc.joinOut → s.rdOut.done = true →
      Step s { s with pc := ParentPc.readOut }
  | parentReadOut (s : RunSt) :
      s.pc = ParentPc.readOut →
      Step s { s with
        stdoutVar := s.rdOut.result.head?,
        pc := ParentPc.joinErr }
  | parentJoinErr (s : RunSt) :
      s.pc = ParentPc.joinErr → s.rdErr.done = true →
      Step s { s with pc := ParentPc.readErr }
  | parentReadErr (s : RunSt) :
      s.pc = ParentPc.readErr →
      Step s { s with
        stderrVar := s.rdErr.result.head?,
        pc := ParentPc.finished }

/-- The inductive invariant of the transition system, for a child writing
`totalOut` / `totalErr` overall: data conservation per stream (what a reader
has accumulated, what sits in the buffer and what the child still has to
write always concatenate to the stream's total), a reader finishes only
after the buffer is drained and the child exited, its result list is exactly
its accumulated data once finished, and the parent's program counter
witnesses the joins it has passed. -/
structure RunInv (totalOut totalErr : List Char) (s : RunSt) : Prop where
  aliveDead : s.alive = false → s.script = []
  outDoneBuf : s.rdOut.done = true → s.outBuf = [] ∧ s.alive = false
  outResultPending : s.rdOut.done = false → s.rdOut.result = []
  outResultDone : s.rdOut.done = true → s.rdOut.result = [s.rdOut.acc]
  outTotal : s.rdOut.acc ++ s.outBuf.flatten ++
    (outChunks s.script).flatten = totalOut
  errDoneBuf : s.rdErr.done = true → s.errBuf = [] ∧ s.alive = false
  errResultPending : s.rdErr.done = false → s.rdErr.result = []
  errResultDone : s.rdErr.done = true → s.rdErr.result = [s.rdErr.acc]
  errTotal : s.rdErr.acc ++ s.errBuf.flatten ++
    (errChunks s.script).flatten = totalErr
  pcOutDone : (s.pc = ParentPc.readOut ∨ s.pc = ParentPc.joinErr ∨
    s.pc = ParentPc.readErr ∨ s.pc = ParentPc.finished) → s.rdOut.done = true
  pcStdout : (s.pc = ParentPc.joinErr ∨ s.pc = ParentPc.readErr ∨
    s.pc = ParentPc.finished) → s.stdoutVar = some s.rdOut.acc
  pcErrDone : (s.pc = ParentPc.readErr ∨ s.pc = ParentPc.finished) →
    s.rdErr.done = true
  pcStderr : s.pc = ParentPc.finished → s.stderrVar = some s.rdErr.acc

/-- The child script for the concurrency witness: one stdout line. -/
def demoScript : List (Bool × List Char) := [(true, "TEST\n".data)]

/-- The state the witness trace reaches after the child wrote and exited,
both readers drained and finished, and the parent waited, joined and read
both results. -/
def demoFinal : RunSt :=
  ⟨[], false, [], [], ⟨"TEST\n".data, ["TEST\n".data], true⟩,
    ⟨[], [[]], true⟩, ParentPc.finished, some ("TEST\n".data), some []⟩

end YamlRunner

namespace YamlRunner

theorem mem_dfsEntries_of_under {under : Bool} {m : List (String × Yaml)}
    {e : String × List (String × Yaml) × Bool} (h : e ∈ dfsEntries under m)
    (hu : under = true) : e.2.2 = true := by
  induction under, m using dfsEntries.induct with
  | case1 => simp [dfsEntries] at h
  | case2 under k mv rest ih1 ih2 =>
    subst hu
    simp only [dfsEntries, Bool.true_or, List.mem_cons, List.mem_append] at h
    rcases h with h | h | h
    · simp [h]
    · exact ih1 h rfl
    · exact ih2 h rfl
  | case3 under k v rest hne ih =>
    rw [dfsEntries] at h
    · exact ih h hu
    · exact hne

/-- **C1.** `_get_command_sections` returns exactly the mapping-valued nodes,
in depth-first left-to-right order following the configuration's native key
order, whose `command` entry is truthy, each tagged with `name` equal to the
key under which it was found; no strict descendant of a truthy-`command`
mapping is emitted, mappings without a truthy `command` entry are recursed
into with their results appended, and non-mapping values are ignored. -/
theorem getCommandSections_spec (m : List (String × Yaml)) :
    (getCommandSections m).1 =
      ((dfsEntries false m).filter
          (fun e => truthyCommand e.2.1 && !e.2.2)).map
        (fun e => dictUpdate e.2.1 "name" (Yaml.str e.1)) := by
  induction m using getCommandSections.induct with
  | case1 => simp [getCommandSections, dfsEntries]
  | case2 k mv rest htruthy ih =>
    have hdrop : ((dfsEntries true mv).filter
        (fun e => truthyCommand e.2.1 && !e.2.2)) = [] := by
      refine List.filter_eq_nil_iff.mpr ?_
      intro e he
      have := mem_dfsEntries_of_under he rfl
      simp [this]
    simp [getCommandSections, dfsEntries, htruthy, hdrop, ih]
  | case3 k mv rest htruthy ih1 ih2 =>
    rw [Bool.not_eq_true] at htruthy
    simp [getCommandSections, dfsEntries, htruthy, ih1, ih2]
  | case4 k v rest hnotmap ih =>
    rw [getCommandSections, dfsEntries]
    · exact ih
    · exact hnotmap
    · exact hnotmap

/-- **C5 counterexample.** The configuration `{'a': {'command': 'x'}}` is not
left unchanged by `_get_command_sections`: the walker adds `'name': 'a'` to
the command node in place. -/
theorem getCommandSections_mutates :
    (getCommandSections [("a", Yaml.map [("command", Yaml.str "x")])]).2 ≠
      [("a", Yaml.map [("command", Yaml.str "x")])] := by
  have ht : truthyCommand [("command", Yaml.str "x")] = true := by decide
  simp [getCommandSections, ht, dictUpdate]

/-- **C5 (amended).** `_get_command_sections` leaves the supplied mapping
unchanged *except* that every discovered command node (mapping with a truthy
`command` entry, not below another such node) has its `name` entry set, in
place, to the key under which it was found; everything else is preserved. -/
theorem getCommandSections_effect (m : List (String × Yaml)) :
    (getCommandSections m).2 = tagNames m := by
  induction m using getCommandSections.induct with
  | case1 => simp [getCommandSections, tagNames]
  | case2 k mv rest htruthy ih =>
    simp [getCommandSections, tagNames, htruthy, ih]
  | case3 k mv rest htruthy ih1 ih2 =>
    rw [Bool.not_eq_true] at htruthy
    simp [getCommandSections, tagNames, htruthy, ih1, ih2]
  | case4 k v rest hnotmap ih =>
    rw [getCommandSections, tagNames]
    · rw [ih]
    · exact hnotmap
    · exact hnotmap

/-- **C2 (code bug).** For the command `echo hello world`, whose single line
contains no `$@`, `_process_command_config` still sets `passthrough=True`
(the stage-3 parser declares the catch-all PASSTHROUGH positional), because
`if filter(lambda x: '$@' in x, self.commands):` tests a Python 3 filter
object, which is always truthy.  The spec's intended decision
(`specPassthrough`) is `false` on this input. -/
theorem passthrough_always_declared :
    (processCommandConfig (Yaml.str "echo hello world")).2 = true ∧
      specPassthrough ["echo hello world".data] = false := by
  constructor
  · rfl
  · decide

theorem replaceDollarAt_of_not_contains (rep : List Char) (p : List Char)
    (h : containsDollarAt p = false) : replaceDollarAt rep p = p := by
  induction p using containsDollarAt.induct with
  | case1 => rfl
  | case2 c => rfl
  | case3 c1 c2 rest ih =>
    rw [containsDollarAt] at h
    rcases Bool.or_eq_false_iff.mp h with ⟨h1, h2⟩
    rw [replaceDollarAt, if_neg (by simp [h1]), ih h2]

theorem replaceDollarAt_append_marker (rep : List Char) (p t : List Char)
    (h : containsDollarAt p = false) :
    replaceDollarAt rep (p ++ '$' :: '@' :: t) =
      p ++ rep ++ replaceDollarAt rep t := by
  induction p using containsDollarAt.induct with
  | case1 => simp [replaceDollarAt]
  | case2 c =>
    show replaceDollarAt rep (c :: '$' :: '@' :: t) = _
    rw [replaceDollarAt, if_neg (by simp), replaceDollarAt, if_pos (by simp)]
    rfl
  | case3 c1 c2 rest ih =>
    rw [containsDollarAt] at h
    rcases Bool.or_eq_false_iff.mp h with ⟨h1, h2⟩
    show replaceDollarAt rep (c1 :: c2 :: (rest ++ '$' :: '@' :: t)) = _
    rw [replaceDollarAt, if_neg (by simp [h1])]
    have hih := ih h2
    simp only [List.cons_append] at hih ⊢
    rw [hih]

theorem replaceDollarAt_joinWith (rep : List Char) (parts : List (List Char))
    (h : ∀ q ∈ parts, containsDollarAt q = false) :
    replaceDollarAt rep (joinWith dollarAt parts) = joinWith rep parts := by
  induction parts using joinWith.induct dollarAt with
  | case1 => rfl
  | case2 a =>
    exact replaceDollarAt_of_not_contains rep a (h a (by simp))
  | case3 a b rest ih =>
    have ha : containsDollarAt a = false := h a (by simp)
    have hrest : ∀ q ∈ b :: rest, containsDollarAt q = false := by
      intro q hq
      exact h q (List.mem_cons_of_mem a hq)
    rw [joinWith, joinWith]
    have hassoc : a ++ dollarAt ++ joinWith dollarAt (b :: rest) =
        a ++ '$' :: '@' :: joinWith dollarAt (b :: rest) := by
      simp [dollarAt]
    rw [hassoc, replaceDollarAt_append_marker rep a _ ha, ih hrest]

theorem mem_zip_map {α β : Type} (f : α → β) (l : List α) (p : α × β)
    (h : p ∈ List.zip l (l.map f)) : p.2 = f p.1 := by
  induction l with
  | nil => simp at h
  | cons a rest ih =>
    simp only [List.map_cons, List.zip_cons_cons, List.mem_cons] at h
    rcases h with h | h
    · rw [h]
    · exact ih h

/-- **C3.** Stage 3 replaces, in every line of the selected command's
sequence, every occurrence of the literal substring `$@` by the leftover
tokens joined by a single space, and leaves lines containing no `$@`
unchanged.  The list of lines keeps its length; a line that decomposes as
`$@`-free parts joined by `$@` becomes those parts joined by the space-joined
leftover tokens. -/
theorem substituteCommands_spec (commands remainingArgs : List (List Char)) :
    (substituteCommands commands remainingArgs).length = commands.length ∧
    ∀ p ∈ List.zip commands (substituteCommands commands remainingArgs),
      (containsDollarAt p.1 = false → p.2 = p.1) ∧
      (∀ parts : List (List Char),
        (∀ q ∈ parts, containsDollarAt q = false) →
        p.1 = joinWith dollarAt parts →
        p.2 = joinWith (spaceJoin remainingArgs) parts) := by
  constructor
  · simp [substituteCommands]
  · intro p hp
    have hp2 := mem_zip_map _ commands p hp
    constructor
    · intro hfree
      rw [hp2]
      simp [hfree]
    · intro parts hparts hdecomp
      rw [hp2, hdecomp]
      have h1 := replaceDollarAt_joinWith (spaceJoin remainingArgs) parts hparts
      by_cases hc : containsDollarAt (joinWith dollarAt parts) = true
      · rw [if_pos hc]
        exact h1
      · rw [if_neg hc]
        rw [Bool.not_eq_true] at hc
        have h2 := replaceDollarAt_of_not_contains (spaceJoin remainingArgs) _ hc
        exact h2.symm.trans h1

/-- **C3 witness.** Substituting passthrough tokens `["TEST"]` into the
single line `echo $@` (which splits at its one `$@` occurrence into the
placeholder-free parts `echo ` and the empty string) yields `echo TEST`. -/
theorem substituteCommands_spec_witness :
    ("echo $@".data, "echo TEST".data) ∈
        List.zip ["echo $@".data]
          (substituteCommands ["echo $@".data] ["TEST".data]) ∧
      ("echo $@".data, "echo TEST".data).2 =
        joinWith (spaceJoin ["TEST".data]) ["echo ".data, []] :=
  ⟨by decide,
   ((substituteCommands_spec ["echo $@".data] ["TEST".data]).2
       ("echo $@".data, "echo TEST".data) (by decide)).2
     ["echo ".data, []] (by decide) (by decide)⟩

/-- **C4.** `_run_commands` executes all N lines one at a time in declared
order — no early stop on a nonzero exit — and returns three parallel lists
(stdout, stderr, exit codes), each of length N, whose i-th entries all come
from executing the i-th line. -/
theorem runCommands_spec (oracle : RunOracle) (commands : List String) :
    (runCommands oracle commands).1.length = commands.length ∧
    (runCommands oracle commands).2.1.length = commands.length ∧
    (runCommands oracle commands).2.2.length = commands.length ∧
    ∀ i : Nat,
      (runCommands oracle commands).1[i]? =
        (commands[i]?).map (fun c => (oracle c).1) ∧
      (runCommands oracle commands).2.1[i]? =
        (commands[i]?).map (fun c => (oracle c).2.1) ∧
      (runCommands oracle commands).2.2[i]? =
        (commands[i]?).map (fun c => (oracle c).2.2) := by
  have hmaps : (runCommands oracle commands).1 =
      commands.map (fun c => (oracle c).1) ∧
      (runCommands oracle commands).2.1 =
        commands.map (fun c => (oracle c).2.1) ∧
      (runCommands oracle commands).2.2 =
        commands.map (fun c => (oracle c).2.2) := by
    induction commands with
    | nil => simp [runCommands]
    | cons c rest ih =>
      simp [runCommands, ih.1, ih.2.1, ih.2.2]
  refine ⟨?_, ?_, ?_, ?_⟩
  · simp [hmaps.1]
  · simp [hmaps.2.1]
  · simp [hmaps.2.2]
  · intro i
    rw [hmaps.1, hmaps.2.1, hmaps.2.2]
    simp [List.getElem?_map]

/-- **C6 counterexample.** With the two-line sequence `["exit 1",
"echo done"]` (first line exits 1, second exits 0) the CLI entry point
reports exit status 1 — the status of the *first* executed line — while the
last executed line's status is 0, refuting "the reported exit status equals
the exit status of the last executed command line". -/
theorem cliExitCode_ne_last :
    cliExitCode (runCommands execCodeDemo ["exit 1", "echo done"]) ≠
      (runCommands execCodeDemo ["exit 1", "echo done"]).2.2.getLast? := by
  decide

theorem scanInitialArgs_cfgOff (args : List String) (h : Bool)
    (c : Option String) (l : List String) :
    scanInitialArgs false h c l args =
      .ok (h || args.any isHelpToken, c,
        l ++ args.filter (fun t => !isHelpToken t)) := by
  induction args generalizing h l with
  | nil => simp [scanInitialArgs]
  | cons t rest ih =>
    rw [scanInitialArgs.eq_def]
    by_cases ht : isHelpToken t = true
    · simp [ht, ih]
    · rw [Bool.not_eq_true] at ht
      simp [ht, ih]

theorem scanInitialArgs_noConfigTokens :
    ∀ (args : List String) (h : Bool) (c : Option String) (l : List String),
      (∀ t ∈ args, isConfigToken t = false) →
      scanInitialArgs true h c l args =
        .ok (h || args.any isHelpToken, c,
          l ++ args.filter (fun t => !isHelpToken t))
  | [], h, c, l, _ => by simp [scanInitialArgs]
  | t :: rest, h, c, l, hno => by
    have hnt : isConfigToken t = false := hno t (by simp)
    have hrest : ∀ u ∈ rest, isConfigToken u = false := by
      intro u hu
      exact hno u (List.mem_cons_of_mem _ hu)
    rw [isConfigToken] at hnt
    rcases Bool.or_eq_false_iff.mp hnt with ⟨hnt1, hlong⟩
    rcases Bool.or_eq_false_iff.mp hnt1 with ⟨hsep, hshort⟩
    rw [scanInitialArgs.eq_def]
    by_cases ht : isHelpToken t = true
    · simp [hsep, hshort, hlong, ht,
        scanInitialArgs_noConfigTokens rest _ _ _ hrest]
    · rw [Bool.not_eq_true] at ht
      simp [hsep, hshort, hlong, ht,
        scanInitialArgs_noConfigTokens rest _ _ _ hrest]

/-- **C7.** With no programmatically supplied configuration, an argument
list containing `--help` but no spelling of `-c`/`--config` makes the
pre-config stage terminate with exit status 2 (argparse's missing required
argument error), and the error-channel output mentions both `-c` and
`--config`. -/
theorem preConfig_missingConfig_error (loadConfig : String → Yaml)
    (args : List String) (_hhelp : "--help" ∈ args)
    (hnocfg : ∀ t ∈ args, isConfigToken t = false) :
    getPreConfigArgs none loadConfig args =
        .usageError 2 missingConfigError ∧
      containsSub missingConfigError "-c" = true ∧
      containsSub missingConfigError "--config" = true := by
  refine ⟨?_, by decide, by decide⟩
  have hscan := scanInitialArgs_noConfigTokens args false none [] hnocfg
  simp [getPreConfigArgs, hscan]

/-- **C7 witness.** The invocation `--help` with no configuration. -/
theorem preConfig_missingConfig_error_witness :
    getPreConfigArgs none (fun _ => Yaml.null) ["--help"] =
        .usageError 2 missingConfigError ∧
      containsSub missingConfigError "-c" = true ∧
      containsSub missingConfigError "--config" = true :=
  preConfig_missingConfig_error (fun _ => Yaml.null) ["--help"] (by simp)
    (by decide)

/-- **C8.** When a help flag is requested and recognized by the pre-config
stage while a configuration is available and truthy, the stage does not
terminate the run: it continues, re-injecting the help flag at the end of
the leftover token list for the later stages. -/
theorem preConfig_defers_help (cfg : Yaml) (loadConfig : String → Yaml)
    (args : List String) (htruthy : pyTruthy cfg = true)
    (hflag : "--help" ∈ args ∨ "-h" ∈ args ∨ "--h" ∈ args) :
    ∃ f, f ∈ args ∧ (f = "--help" ∨ f = "-h" ∨ f = "--h") ∧
      getPreConfigArgs (some cfg) loadConfig args =
        .continueRun (args.filter (fun t => !isHelpToken t) ++ [f]) cfg := by
  have hscan := scanInitialArgs_cfgOff args false none []
  have hany : args.any isHelpToken = true := by
    rcases hflag with h | h | h
    · exact List.any_eq_true.mpr ⟨"--help", h, by decide⟩
    · exact List.any_eq_true.mpr ⟨"-h", h, by decide⟩
    · exact List.any_eq_true.mpr ⟨"--h", h, by decide⟩
  obtain ⟨f, hfmem, hfcanon, hfre⟩ : ∃ f, f ∈ args ∧
      (f = "--help" ∨ f = "-h" ∨ f = "--h") ∧
      helpFlagToReinject args = some f := by
    by_cases h1 : "--help" ∈ args
    · exact ⟨"--help", h1, Or.inl rfl, by simp [helpFlagToReinject, h1]⟩
    · by_cases h2 : "-h" ∈ args
      · exact ⟨"-h", h2, Or.inr (Or.inl rfl),
          by simp [helpFlagToReinject, h1, h2]⟩
      · have h3 : "--h" ∈ args := by
          rcases hflag with h | h | h
          · exact absurd h h1
          · exact absurd h h2
          · exact h
        exact ⟨"--h", h3, Or.inr (Or.inr rfl),
          by simp [helpFlagToReinject, h1, h2, h3]⟩
  refine ⟨f, hfmem, hfcanon, ?_⟩
  simp [getPreConfigArgs, hscan, hany, htruthy, hfre]

/-- **C8 witness.** A truthy configuration with arguments
`["--help", "foo"]`. -/
theorem preConfig_defers_help_witness :
    ∃ f, f ∈ ["--help", "foo"] ∧ (f = "--help" ∨ f = "-h" ∨ f = "--h") ∧
      getPreConfigArgs (some (Yaml.str "x")) (fun _ => Yaml.null)
          ["--help", "foo"] =
        .continueRun
          ((["--help", "foo"].filter (fun t => !isHelpToken t)) ++ [f])
          (Yaml.str "x") :=
  preConfig_defers_help (Yaml.str "x") (fun _ => Yaml.null) ["--help", "foo"]
    (by decide) (Or.inl (by simp))

/-- **C6 (amended).** On normal completion with at least one executed
command, the exit status reported by the CLI entry point equals the exit
status of the *first* executed command line of the selected command's
sequence. -/
theorem cliExitCode_eq_first (oracle : RunOracle) (c : String)
    (cs : List String) :
    cliExitCode (runCommands oracle (c :: cs)) = some (oracle c).2.2 := by
  simp [runCommands, cliExitCode]

theorem insertIdx_append_self {α : Type} :
    ∀ (pre post : List α) (a : α),
      (pre ++ post).insertIdx pre.length a = pre ++ a :: post
  | [], post, a => by simp
  | b :: pre, post, a => by
    simp [List.insertIdx_succ_cons, insertIdx_append_self pre post a]

theorem insertChoicesLoop_splice :
    ∀ (choices : List ChoiceInfo) (pre post : List (List Char))
      (ind : List Char) (ci : Nat), ci + 1 = pre.length →
      insertChoicesLoop (pre ++ post) ci ind choices =
        pre ++ choices.map (formatChoice ind) ++ post
  | [], pre, post, ind, ci, _ => by simp [insertChoicesLoop]
  | ch :: rest, pre, post, ind, ci, hpre => by
    rw [insertChoicesLoop]
    rw [show (pre ++ post).insertIdx (ci + 1) (formatChoice ind ch) =
        (pre ++ [formatChoice ind ch]) ++ post from by
      rw [hpre, insertIdx_append_self]; simp]
    rw [insertChoicesLoop_splice rest (pre ++ [formatChoice ind ch])
      post ind (ci + 1) (by simp [← hpre])]
    simp

/-- **C9.** `add_choices_to_help` returns the input help text with a
`Choices:` line inserted directly beneath the first line matching leading
whitespace followed by the given positional metavar, indented to that
argument's description column, followed by one line per choice in the given
order (`name` alone, or `name - description` for a pair), with every other
line preserved unmodified (the result is the original lines with the block
spliced in after the matched line); and it raises an error whenever no line
of the input matches leading whitespace followed by the metavar. -/
theorem addChoicesToHelp_spec (helpString commandMetavar : String)
    (choices : List ChoiceInfo) :
    (∀ i col,
      (pySplitLines helpString.data).findIdx?
          (fun line => lineIntroducesMetavar commandMetavar.data line) =
        some i →
      metavarDescColumn commandMetavar.data
          ((pySplitLines helpString.data).getD i []) = some col →
      addChoicesToHelp helpString commandMetavar choices =
        .ok ⟨joinWith ['\n']
          ((pySplitLines helpString.data).take (i + 1) ++
            ((List.replicate col ' ' ++ ("Choices:".data)) ::
              choices.map
                (formatChoice (List.replicate col ' ' ++ ("  ".data)))) ++
            (pySplitLines helpString.data).drop (i + 1))⟩) ∧
    ((∀ line ∈ pySplitLines helpString.data,
        lineIntroducesMetavar commandMetavar.data line = false) →
      addChoicesToHelp helpString commandMetavar choices =
        .error "command_metavar not found in help string") := by
  constructor
  · intro i col hfind hcol
    have hlt : i < (pySplitLines helpString.data).length :=
      (List.findIdx?_eq_some_iff_findIdx_eq.mp hfind).1
    simp only [addChoicesToHelp, hfind, hcol]
    have hkey : (pySplitLines helpString.data).insertIdx (i + 1)
        (List.replicate col ' ' ++ ("Choices:".data)) =
        (pySplitLines helpString.data).take (i + 1) ++
          (List.replicate col ' ' ++ ("Choices:".data)) ::
          (pySplitLines helpString.data).drop (i + 1) := by
      have h0 := insertIdx_append_self
        ((pySplitLines helpString.data).take (i + 1))
        ((pySplitLines helpString.data).drop (i + 1))
        (List.replicate col ' ' ++ ("Choices:".data))
      rwa [List.take_append_drop, List.length_take,
        min_eq_left (by omega)] at h0
    rw [hkey]
    have hstep : (pySplitLines helpString.data).take (i + 1) ++
        (List.replicate col ' ' ++ ("Choices:".data)) ::
        (pySplitLines helpString.data).drop (i + 1) =
        ((pySplitLines helpString.data).take (i + 1) ++
          [List.replicate col ' ' ++ ("Choices:".data)]) ++
        (pySplitLines helpString.data).drop (i + 1) := by simp
    rw [hstep, insertChoicesLoop_splice choices _ _ _ (i + 1)
      (by simp [List.length_take]; omega)]
    simp
  · intro hnone
    have hfind : (pySplitLines helpString.data).findIdx?
        (fun line => lineIntroducesMetavar commandMetavar.data line) = none :=
      List.findIdx?_eq_none_iff.mpr hnone
    simp [addChoicesToHelp, hfind]

/-- **C9 witness.** An argparse-shaped help text whose metavar line is
`  COMMAND  Commands found in the config` (line index 3, description column
11), augmented with one described and one plain choice. -/
theorem addChoicesToHelp_spec_witness :
    addChoicesToHelp demoHelpText "COMMAND" demoChoices =
      .ok ⟨joinWith ['\n']
        ((pySplitLines demoHelpText.data).take (3 + 1) ++
          ((List.replicate 11 ' ' ++ ("Choices:".data)) ::
            demoChoices.map
              (formatChoice (List.replicate 11 ' ' ++ ("  ".data)))) ++
          (pySplitLines demoHelpText.data).drop (3 + 1))⟩ :=
  (addChoicesToHelp_spec demoHelpText "COMMAND" demoChoices).1 3 11
    (by decide) (by decide)

theorem runInv_init (script : List (Bool × List Char)) :
    RunInv (outChunks script).flatten (errChunks script).flatten
      (initRunSt script) := by
  refine ⟨?_, ?_, ?_, ?_, ?_, ?_, ?_, ?_, ?_, ?_, ?_, ?_, ?_⟩ <;>
    simp [initRunSt]

theorem runInv_step {totalOut totalErr : List Char} {s s' : RunSt}
    (hs : RunInv totalOut totalErr s) (hstep : Step s s') :
    RunInv totalOut totalErr s' := by
  cases hstep with
  | childWriteOut chunk rest halive hscript =>
    exact {
      aliveDead := fun h =>
        absurd halive (by simp [show s.alive = false from h])
      outDoneBuf := fun hd =>
        absurd (hs.outDoneBuf hd).2 (by simp [halive])
      outResultPending := hs.outResultPending
      outResultDone := hs.outResultDone
      outTotal := by
        show s.rdOut.acc ++ (s.outBuf ++ [chunk]).flatten ++
          (outChunks rest).flatten = totalOut
        have h0 := hs.outTotal
        rw [hscript] at h0
        simp only [outChunks, List.filterMap_cons, List.flatten_cons,
          List.flatten_append, List.flatten_nil, List.append_nil,
          List.append_assoc, if_true] at h0 ⊢
        exact h0
      errDoneBuf := fun hd =>
        absurd (hs.errDoneBuf hd).2 (by simp [halive])
      errResultPending := hs.errResultPending
      errResultDone := hs.errResultDone
      errTotal := by
        show s.rdErr.acc ++ s.errBuf.flatten ++
          (errChunks rest).flatten = totalErr
        have h0 := hs.errTotal
        rw [hscript] at h0
        simp only [errChunks, List.filterMap_cons, if_true] at h0 ⊢
        exact h0
      pcOutDone := hs.pcOutDone
      pcStdout := hs.pcStdout
      pcErrDone := hs.pcErrDone
      pcStderr := hs.pcStderr }
  | childWriteErr chunk rest halive hscript =>
    exact {
      aliveDead := fun h =>
        absurd halive (by simp [show s.alive = false from h])
      outDoneBuf := fun hd =>
        absurd (hs.outDoneBuf hd).2 (by simp [halive])
      outResultPending := hs.outResultPending
      outResultDone := hs.outResultDone
      outTotal := by
        show s.rdOut.acc ++ s.outBuf.flatten ++
          (outChunks rest).flatten = totalOut
        have h0 := hs.outTotal
        rw [hscript] at h0
        simp only [outChunks, List.filterMap_cons] at h0 ⊢
        simpa using h0
      errDoneBuf := fun hd =>
        absurd (hs.errDoneBuf hd).2 (by simp [halive])
      errResultPending := hs.errResultPending
      errResultDone := hs.errResultDone
      errTotal := by
        show s.rdErr.acc ++ (s.errBuf ++ [chunk]).flatten ++
          (errChunks rest).flatten = totalErr
        have h0 := hs.errTotal
        rw [hscript] at h0
        simp only [errChunks, List.filterMap_cons, List.flatten_cons,
          List.flatten_append, List.flatten_nil, List.append_nil,
          List.append_assoc] at h0 ⊢
        simpa using h0
      pcOutDone := hs.pcOutDone
      pcStdout := hs.pcStdout
      pcErrDone := hs.pcErrDone
      pcStderr := hs.pcStderr }
  | childExit halive hscript =>
    exact {
      aliveDead := fun _ => hscript
      outDoneBuf := fun hd => ⟨(hs.outDoneBuf hd).1, rfl⟩
      outResultPending := hs.outResultPending
      outResultDone := hs.outResultDone
      outTotal := hs.outTotal
      errDoneBuf := fun hd => ⟨(hs.errDoneBuf hd).1, rfl⟩
      errResultPending := hs.errResultPending
      errResultDone := hs.errResultDone
      errTotal := hs.errTotal
      pcOutDone := hs.pcOutDone
      pcStdout := hs.pcStdout
      pcErrDone := hs.pcErrDone
      pcStderr := hs.pcStderr }
  | outRead chunk rest hdone hbuf =>
    exact {
      aliveDead := hs.aliveDead
      outDoneBuf := fun hd =>
        absurd (show s.rdOut.done = true from hd) (by simp [hdone])
      outResultPending := fun _ => hs.outResultPending hdone
      outResultDone := fun hd =>
        absurd (show s.rdOut.done = true from hd) (by simp [hdone])
      outTotal := by
        show (s.rdOut.acc ++ chunk) ++ rest.flatten ++
          (outChunks s.script).flatten = totalOut
        have h0 := hs.outTotal
        rw [hbuf] at h0
        simp only [List.flatten_cons, List.append_assoc] at h0 ⊢
        exact h0
      errDoneBuf := hs.errDoneBuf
      errResultPending := hs.errResultPending
      errResultDone := hs.errResultDone
      errTotal := hs.errTotal
      pcOutDone := hs.pcOutDone
      pcStdout := fun hpc =>
        absurd (hs.pcOutDone (Or.inr hpc)) (by simp [hdone])
      pcErrDone := hs.pcErrDone
      pcStderr := hs.pcStderr }
  | outFinish hdone hbuf hdead =>
    exact {
      aliveDead := hs.aliveDead
      outDoneBuf := fun _ => ⟨hbuf, hdead⟩
      outResultPending := fun h => absurd h (by simp)
      outResultDone := by
        intro _
        show s.rdOut.result ++ [s.rdOut.acc] = [s.rdOut.acc]
        rw [hs.outResultPending hdone]
        simp
      outTotal := hs.outTotal
      errDoneBuf := hs.errDoneBuf
      errResultPending := hs.errResultPending
      errResultDone := hs.errResultDone
      errTotal := hs.errTotal
      pcOutDone := fun _ => rfl
      pcStdout := fun hpc => hs.pcStdout hpc
      pcErrDone := hs.pcErrDone
      pcStderr := hs.pcStderr }
  | errRead chunk rest hdone hbuf =>
    exact {
      aliveDead := hs.aliveDead
      outDoneBuf := hs.outDoneBuf
      outResultPending := hs.outResultPending
      outResultDone := hs.outResultDone
      outTotal := hs.outTotal
      errDoneBuf := fun hd =>
        absurd (show s.rdErr.done = true from hd) (by simp [hdone])
      errResultPending := fun _ => hs.errResultPending hdone
      errResultDone := fun hd =>
        absurd (show s.rdErr.done = true from hd) (by simp [hdone])
      errTotal := by
        show (s.rdErr.acc ++ chunk) ++ rest.flatten ++
          (errChunks s.script).flatten = totalErr
        have h0 := hs.errTotal
        rw [hbuf] at h0
        simp only [List.flatten_cons, List.append_assoc] at h0 ⊢
        exact h0
      pcOutDone := hs.pcOutDone
      pcStdout := hs.pcStdout
      pcErrDone := fun hpc =>
        absurd (hs.pcErrDone hpc) (by simp [hdone])
      pcStderr := fun hpc =>
        absurd (hs.pcErrDone (Or.inr hpc)) (by simp [hdone]) }
  | errFinish hdone hbuf hdead =>
    exact {
      aliveDead := hs.aliveDead
      outDoneBuf := hs.outDoneBuf
      outResultPending := hs.outResultPending
      outResultDone := hs.outResultDone
      outTotal := hs.outTotal
      errDoneBuf := fun _ => ⟨hbuf, hdead⟩
      errResultPending := fun h => absurd h (by simp)
      errResultDone := by
        intro _
        show s.rdErr.result ++ [s.rdErr.acc] = [s.rdErr.acc]
        rw [hs.errResultPending hdone]
        simp
      errTotal := hs.errTotal
      pcOutDone := hs.pcOutDone
      pcStdout := hs.pcStdout
      pcErrDone := fun _ => rfl
      pcStderr := fun hpc => hs.pcStderr hpc }
  | parentWait hpc hdead =>
    exact {
      aliveDead := hs.aliveDead
      outDoneBuf := hs.outDoneBuf
      outResultPending := hs.outResultPending
      outResultDone := hs.outResultDone
      outTotal := hs.outTotal
      errDoneBuf := hs.errDoneBuf
      errResultPending := hs.errResultPending
      errResultDone := hs.errResultDone
      errTotal := hs.errTotal
      pcOutDone := by
        intro h
        rcases h with h | h | h | h <;> exact ParentPc.noConfusion h
      pcStdout := by
        intro h
        rcases h with h | h | h <;> exact ParentPc.noConfusion h
      pcErrDone := by
        intro h
        rcases h with h | h <;> exact ParentPc.noConfusion h
      pcStderr := fun h => ParentPc.noConfusion h }
  | parentJoinOut hpc hd =>
    exact {
      aliveDead := hs.aliveDead
      outDoneBuf := hs.outDoneBuf
      outResultPending := hs.outResultPending
      outResultDone := hs.outResultDone
      outTotal := hs.outTotal
      errDoneBuf := hs.errDoneBuf
      errResultPending := hs.errResultPending
      errResultDone := hs.errResultDone
      errTotal := hs.errTotal
      pcOutDone := fun _ => hd
      pcStdout := by
        intro h
        rcases h with h | h | h <;> exact ParentPc.noConfusion h
      pcErrDone := by
        intro h
        rcases h with h | h <;> exact ParentPc.noConfusion h
      pcStderr := fun h => ParentPc.noConfusion h }
  | parentReadOut hpc =>
    exact {
      aliveDead := hs.aliveDead
      outDoneBuf := hs.outDoneBuf
      outResultPending := hs.outResultPending
      outResultDone := hs.outResultDone
      outTotal := hs.outTotal
      errDoneBuf := hs.errDoneBuf
      errResultPending := hs.errResultPending
      errResultDone := hs.errResultDone
      errTotal := hs.errTotal
      pcOutDone := fun _ => hs.pcOutDone (Or.inl hpc)
      pcStdout := by
        intro _
        show s.rdOut.result.head? = some s.rdOut.acc
        rw [hs.outResultDone (hs.pcOutDone (Or.inl hpc))]
        rfl
      pcErrDone := by
        intro h
        rcases h with h | h <;> exact ParentPc.noConfusion h
      pcStderr := fun h => ParentPc.noConfusion h }
  | parentJoinErr hpc hd =>
    exact {
      aliveDead := hs.aliveDead
      outDoneBuf := hs.outDoneBuf
      outResultPending := hs.outResultPending
      outResultDone := hs.outResultDone
      outTotal := hs.outTotal
      errDoneBuf := hs.errDoneBuf
      errResultPending := hs.errResultPending
      errResultDone := hs.errResultDone
      errTotal := hs.errTotal
      pcOutDone := fun _ => hs.pcOutDone (Or.inr (Or.inl hpc))
      pcStdout := fun _ => hs.pcStdout (Or.inl hpc)
      pcErrDone := fun _ => hd
      pcStderr := fun h => ParentPc.noConfusion h }
  | parentReadErr hpc =>
    exact {
      aliveDead := hs.aliveDead
      outDoneBuf := hs.outDoneBuf
      outResultPending := hs.outResultPending
      outResultDone := hs.outResultDone
      outTotal := hs.outTotal
      errDoneBuf := hs.errDoneBuf
      errResultPending := hs.errResultPending
      errResultDone := hs.errResultDone
      errTotal := hs.errTotal
      pcOutDone := fun _ => hs.pcOutDone (Or.inr (Or.inr (Or.inl hpc)))
      pcStdout := fun _ => hs.pcStdout (Or.inr (Or.inl hpc))
      pcErrDone := fun _ => hs.pcErrDone (Or.inl hpc)
      pcStderr := by
        intro _
        show s.rdErr.result.head? = some s.rdErr.acc
        rw [hs.errResultDone (hs.pcErrDone (Or.inl hpc))]
        rfl }

theorem runInv_reachable (script : List (Bool × List Char)) (s : RunSt)
    (h : Relation.ReflTransGen Step (initRunSt script) s) :
    RunInv (outChunks script).flatten (errChunks script).flatten s := by
  induction h with
  | refl => exact runInv_init script
  | tail _hab hbc ih => exact runInv_step ih hbc

/-- **C10.** In every interleaving of the child, the two stream-draining
workers and the parent — the parent waiting for child termination, then
joining each worker before reading that worker's accumulated buffer — the
stdout string and stderr string the parent reads contain *all* data the
child wrote to the respective stream: whenever the parent has finished,
its stdout variable is the concatenation of every stdout chunk and its
stderr variable the concatenation of every stderr chunk. -/
theorem runCommand_no_data_loss (script : List (Bool × List Char))
    (s : RunSt) (hreach : Relation.ReflTransGen Step (initRunSt script) s)
    (hdone : s.pc = ParentPc.finished) :
    s.stdoutVar = some (outChunks script).flatten ∧
      s.stderrVar = some (errChunks script).flatten := by
  have hinv := runInv_reachable script s hreach
  have houtDone : s.rdOut.done = true :=
    hinv.pcOutDone (Or.inr (Or.inr (Or.inr hdone)))
  have herrDone : s.rdErr.done = true :=
    hinv.pcErrDone (Or.inr hdone)
  have houtBuf := hinv.outDoneBuf houtDone
  have herrBuf := hinv.errDoneBuf herrDone
  have hscript := hinv.aliveDead houtBuf.2
  have houtTotal := hinv.outTotal
  have herrTotal := hinv.errTotal
  rw [hscript, houtBuf.1] at houtTotal
  rw [hscript, herrBuf.1] at herrTotal
  have hout0 : outChunks ([] : List (Bool × List Char)) = [] := rfl
  have herr0 : errChunks ([] : List (Bool × List Char)) = [] := rfl
  rw [hout0] at houtTotal
  rw [herr0] at herrTotal
  simp only [List.flatten_nil, List.append_nil] at houtTotal herrTotal
  constructor
  · rw [hinv.pcStdout (Or.inr (Or.inr hdone)), houtTotal]
  · rw [hinv.pcStderr hdone, herrTotal]

/-- **C10 witness.** A child writing the single stdout line `TEST` and
exiting, with one concrete interleaving: write, exit, stdout reader drains
and finishes, stderr reader sees end-of-stream, parent waits, joins the
stdout worker, reads, joins the stderr worker, reads. -/
theorem runCommand_no_data_loss_witness :
    demoFinal.pc = ParentPc.finished ∧
      demoFinal.stdoutVar = some (outChunks demoScript).flatten ∧
      demoFinal.stderrVar = some (errChunks demoScript).flatten := by
  have htrace : Relation.ReflTransGen Step (initRunSt demoScript) demoFinal :=
    Relation.ReflTransGen.tail
      (Relation.ReflTransGen.tail
        (Relation.ReflTransGen.tail
          (Relation.ReflTransGen.tail
            (Relation.ReflTransGen.tail
              (Relation.ReflTransGen.tail
                (Relation.ReflTransGen.tail
                  (Relation.ReflTransGen.tail
                    (Relation.ReflTransGen.tail
                      (Relation.ReflTransGen.tail
                        (Relation.ReflTransGen.refl)
                        (Step.childWriteOut _ ("TEST\n".data) [] rfl rfl))
                      (Step.childExit _ rfl rfl))
                    (Step.outRead _ ("TEST\n".data) [] rfl rfl))
                  (Step.outFinish _ rfl rfl rfl))
                (Step.errFinish _ rfl rfl rfl))
              (Step.parentWait _ rfl rfl))
            (Step.parentJoinOut _ rfl rfl))
          (Step.parentReadOut _ rfl))
        (Step.parentJoinErr _ rfl rfl))
      (Step.parentReadErr _ rfl)
  exact ⟨rfl, runCommand_no_data_loss demoScript demoFinal htrace rfl⟩

end YamlRunner
